import Mathlib

/-!
Verification development for the godav chunked-upload engine
(repository tlmanz/godav).

This file gives a shallow embedding, in Lean 4, of the parts of the
repository that the verified properties talk about:

* the upload controller state machine (upload_controller.go),
* the engine's pause-wait behaviour (chunked_upload.go, pause branch),
* the buffer pool (buffer_pool.go),
* chunk counting (utils.go / client.go, calculateChunks),
* checkpoint save/load (checkpoint.go),
* the multi-session upload manager (upload_manager.go),
* remote-path sanitization (utils.go, sanitizeRemotePath),
* the chunked upload engine itself (client.go uploadFileCore and
  chunked_upload.go uploadChunked).

Modelling conventions, used throughout:

* Go machine integers (int, int64) are modelled as Lean Int; where
  overflow matters (calculateChunks) the wrap into two's-complement
  int64 range is written explicitly.
* Fallible operations return Except or Option.
* External collaborators (the WebDAV transport, the local filesystem,
  the Go standard library's JSON and time facilities) are not code of
  this repository; they are modelled at their documented interface:
  the transport is an oracle supplied in an environment record, byte
  payloads are modelled by their length (no verified property inspects
  chunk contents), and JSON documents are modelled as structured values
  (the textual rendering is serialization mechanics outside the repo).
* Concurrency is modelled by sequentializing the observable
  interaction points: the engine reads a controller snapshot at each
  loop iteration, and the operations other threads perform while the
  engine is blocked in its pause wait are supplied as an explicit list.
-/

namespace Godav

/-! ## Upload controller (upload_controller.go) -/

/-- Upload states, from types.go: StateRunning, StatePaused, StateCancelled. -/
inductive UploadState where
  | running
  | paused
  | cancelled
deriving DecidableEq, Repr

/-- The per-session upload controller of upload_controller.go.  The Go
struct carries a state field plus two one-slot buffered signalling
channels, pauseCh and resumeCh; a Bool records whether the one-slot
buffer currently holds a signal.  The sessionID, manager back-pointer
and mutex do not affect the verified behaviour and are omitted. -/
structure UploadController where
  state : UploadState
  pauseSig : Bool
  resumeSig : Bool
deriving DecidableEq, Repr

/-- NewSimpleUploadController / NewUploadController: state starts as
StateRunning with empty signal channels. -/
def NewSimpleUploadController : UploadController :=
  { state := .running, pauseSig := false, resumeSig := false }

/-- UploadController.Pause (upload_controller.go:57-67): if the state is
Running, move to Paused and do a non-blocking send on pauseCh (a send
into a full one-slot buffer is dropped, so the slot simply becomes or
stays occupied); otherwise do nothing. -/
def UploadController.Pause (uc : UploadController) : UploadController :=
  if uc.state = .running then
    { uc with state := .paused, pauseSig := true }
  else uc

/-- UploadController.Resume (upload_controller.go:70-80): if the state is
Paused, move to Running and do a non-blocking send on resumeCh;
otherwise do nothing. -/
def UploadController.Resume (uc : UploadController) : UploadController :=
  if uc.state = .paused then
    { uc with state := .running, resumeSig := true }
  else uc

/-- UploadController.Cancel (upload_controller.go:83-87): unconditionally
set the state to Cancelled.  No signal is sent on any channel. -/
def UploadController.Cancel (uc : UploadController) : UploadController :=
  { uc with state := .cancelled }

/-- A controller operation another thread may invoke. -/
inductive CtrlOp where
  | pauseOp
  | resumeOp
  | cancelOp
deriving DecidableEq, Repr

/-- Apply one controller operation. -/
def applyCtrlOp (uc : UploadController) : CtrlOp → UploadController
  | .pauseOp => uc.Pause
  | .resumeOp => uc.Resume
  | .cancelOp => uc.Cancel

/-- Apply a sequence of controller operations, oldest first. -/
def applyCtrlOps (uc : UploadController) : List CtrlOp → UploadController
  | [] => uc
  | op :: ops => applyCtrlOps (applyCtrlOp uc op) ops

lemma applyCtrlOp_cancelled (uc : UploadController) (op : CtrlOp)
    (h : uc.state = .cancelled) : (applyCtrlOp uc op).state = .cancelled := by
  cases op <;>
    simp [applyCtrlOp, UploadController.Pause, UploadController.Resume,
      UploadController.Cancel, h]

lemma applyCtrlOps_cancelled (ops : List CtrlOp) (uc : UploadController)
    (h : uc.state = .cancelled) : (applyCtrlOps uc ops).state = .cancelled := by
  induction ops generalizing uc with
  | nil => exact h
  | cons op ops ih => exact ih _ (applyCtrlOp_cancelled uc op h)

/-- Claim C5: the controller state machine.  From Running, Pause yields
Paused; from Paused, Resume yields Running; Cancel from any state yields
Cancelled; Pause when not Running and Resume when not Paused leave the
controller unchanged; and Cancelled is terminal: after Cancel, no
sequence of Pause/Resume/Cancel calls ever moves the observed state away
from Cancelled. -/
theorem controller_state_machine (uc : UploadController) :
    (uc.state = .running → uc.Pause.state = .paused) ∧
    (uc.state = .paused → uc.Resume.state = .running) ∧
    uc.Cancel.state = .cancelled ∧
    (uc.state ≠ .running → uc.Pause = uc) ∧
    (uc.state ≠ .paused → uc.Resume = uc) ∧
    (∀ ops : List CtrlOp, (applyCtrlOps uc.Cancel ops).state = .cancelled) := by
  refine ⟨?_, ?_, rfl, ?_, ?_, ?_⟩
  · intro h; simp [UploadController.Pause, h]
  · intro h; simp [UploadController.Resume, h]
  · intro h; simp [UploadController.Pause, h]
  · intro h; simp [UploadController.Resume, h]
  · intro ops; exact applyCtrlOps_cancelled ops _ rfl

/-- Concrete instantiation of the controller state machine theorem. -/
theorem controller_state_machine_witness :
    NewSimpleUploadController.Pause.state = .paused ∧
    (applyCtrlOps NewSimpleUploadController.Cancel
      [.pauseOp, .resumeOp, .pauseOp]).state = .cancelled := by
  have h := controller_state_machine NewSimpleUploadController
  exact ⟨h.1 rfl, h.2.2.2.2.2 [.pauseOp, .resumeOp, .pauseOp]⟩

/-! ## Buffer pool (buffer_pool.go) -/

/-- A byte buffer, modelled by an allocation identity and its length.
The pool never inspects buffer contents (buffer_pool.go performs no
validation of contents), so the bytes themselves are not modelled. -/
structure Buffer where
  id : Nat
  len : Nat
deriving DecidableEq, Repr

/-- BufferPool (buffer_pool.go:15-18): a channel of buffers (modelled as
a FIFO list plus its capacity) and the configured buffer size.  The
fresh counter is an embedding device giving distinct identities to
freshly allocated buffers. -/
structure BufferPool where
  size : Nat
  capacity : Nat
  pool : List Buffer
  fresh : Nat
deriving DecidableEq, Repr

/-- NewBufferPool (buffer_pool.go:21-26): an empty pool with the given
buffer size and channel capacity. -/
def NewBufferPool (chunkSize : Nat) (poolSize : Nat) : BufferPool :=
  { size := chunkSize, capacity := poolSize, pool := [], fresh := 0 }

/-- BufferPool.Get (buffer_pool.go:29-36): a non-blocking receive from
the channel; if a buffer is available return it, otherwise allocate a
fresh buffer of the configured size. -/
def BufferPool.Get (bp : BufferPool) : Buffer × BufferPool :=
  match bp.pool with
  | b :: rest => (b, { bp with pool := rest })
  | [] => (⟨bp.fresh, bp.size⟩, { bp with fresh := bp.fresh + 1 })

/-- BufferPool.Put (buffer_pool.go:39-49): discard the buffer if its
length differs from the configured size; otherwise a non-blocking send,
which stores the buffer only if the channel is below capacity. -/
def BufferPool.Put (bp : BufferPool) (b : Buffer) : BufferPool :=
  if b.len ≠ bp.size then bp
  else if bp.pool.length < bp.capacity then { bp with pool := bp.pool ++ [b] }
  else bp

/-- One client interaction with the pool. -/
inductive PoolOp where
  | get
  | put (b : Buffer)

/-- Run a sequence of Get/Put operations against a pool, collecting the
buffers returned by Get in order. -/
def runPool (bp : BufferPool) : List PoolOp → BufferPool × List Buffer
  | [] => (bp, [])
  | .get :: ops =>
    let (b, bp') := bp.Get
    let (bp'', bs) := runPool bp' ops
    (bp'', b :: bs)
  | .put b :: ops => runPool (bp.Put b) ops

lemma runPool_len (ops : List PoolOp) (bp : BufferPool)
    (hinv : ∀ b ∈ bp.pool, b.len = bp.size) :
    ∀ b ∈ (runPool bp ops).2, b.len = bp.size := by
  induction ops generalizing bp with
  | nil => intro b hb; simp [runPool] at hb
  | cons op ops ih =>
    cases op with
    | get =>
      intro b hb
      rcases hpool : bp.pool with _ | ⟨p, rest⟩
      · have hGet : bp.Get = (⟨bp.fresh, bp.size⟩, { bp with fresh := bp.fresh + 1 }) := by
          simp [BufferPool.Get, hpool]
        simp only [runPool, hGet, List.mem_cons] at hb
        rcases hb with rfl | hb
        · rfl
        · exact ih { bp with fresh := bp.fresh + 1 } (by simp [hpool]) b hb
      · have hGet : bp.Get = (p, { bp with pool := rest }) := by
          simp [BufferPool.Get, hpool]
        simp only [runPool, hGet, List.mem_cons] at hb
        rcases hb with rfl | hb
        · exact hinv b (by simp [hpool])
        · exact ih { bp with pool := rest }
            (fun c hc => hinv c (by simp [hpool]; right; exact hc)) b hb
    | put c =>
      intro b hb
      simp only [runPool] at hb
      have hsize : (bp.Put c).size = bp.size := by
        unfold BufferPool.Put
        split
        · rfl
        · split <;> rfl
      have hket : ∀ d ∈ (bp.Put c).pool, d.len = bp.size := by
        unfold BufferPool.Put
        split
        · exact hinv
        · next hlen =>
          split
          · intro d hd
            simp only [List.mem_append, List.mem_singleton] at hd
            rcases hd with hd | rfl
            · exact hinv d hd
            · exact not_ne_iff.mp hlen
          · exact hinv
      have := ih (bp.Put c) (by rw [hsize]; exact hket) b hb
      rwa [hsize] at this

/-- Claim C9: the buffer pool preserves the invariant that every pooled
buffer has the configured length.  For every sequence of Get/Put
operations run against a freshly constructed pool, every buffer
returned by Get has length equal to the configured size; consequently a
buffer handed to Put whose length differs from the configured size is
never subsequently returned by Get. -/
theorem bufferPool_size_invariant (chunkSize poolSize : Nat)
    (ops : List PoolOp) :
    (∀ b ∈ (runPool (NewBufferPool chunkSize poolSize) ops).2,
        b.len = chunkSize) ∧
    (∀ b : Buffer, b.len ≠ chunkSize →
        b ∉ (runPool (NewBufferPool chunkSize poolSize) ops).2) := by
  have h := runPool_len ops (NewBufferPool chunkSize poolSize)
    (by intro b hb; simp [NewBufferPool] at hb)
  exact ⟨h, fun b hb hmem => hb (h b hmem)⟩

/-- Concrete instantiation: a wrongly sized buffer put into a pool of
size 4 is not among the buffers later handed out by Get. -/
theorem bufferPool_size_invariant_witness :
    (⟨7, 3⟩ : Buffer) ∉
      (runPool (NewBufferPool 4 2) [.put ⟨7, 3⟩, .get, .get]).2 :=
  (bufferPool_size_invariant 4 2 [.put ⟨7, 3⟩, .get, .get]).2 ⟨7, 3⟩ (by decide)

/-! ## Chunk counting (utils.go:1567-1570 / client.go:578-581) -/

/-- Two's-complement wrap of an integer into the int64 range, the
overflow behaviour Go gives arithmetic on int64. -/
def wrap64 (x : Int) : Int := (x + 2 ^ 63) % 2 ^ 64 - 2 ^ 63

/-- calculateChunks, from utils.go / client.go:

int((fileSize + chunkSize - 1) / chunkSize)

with Go int64 semantics made explicit: the addition and subtraction
wrap into int64 range, the division truncates toward zero, and the
final conversion to int is the identity on a 64-bit platform. -/
def calculateChunks (fileSize chunkSize : Int) : Int :=
  wrap64 (Int.tdiv (wrap64 (wrap64 (fileSize + chunkSize) - 1)) chunkSize)

lemma wrap64_eq_self {x : Int} (h1 : -(2 ^ 63) ≤ x) (h2 : x < 2 ^ 63) :
    wrap64 x = x := by
  have h0 : (0 : Int) ≤ x + 2 ^ 63 := by linarith
  have hlt : x + 2 ^ 63 < 2 ^ 64 := by norm_num at h2 ⊢; linarith
  rw [wrap64, Int.emod_eq_of_lt h0 hlt]
  ring

/-- Claim C8, counterexample: calculateChunks is not ceil division on
the whole int64 range.  At fileSize = 2 ^ 63 - 1 (a valid int64) and
chunkSize = 1024 the addition overflows and the result is negative,
whereas the ceiling is 9007199254740992. -/
theorem calculateChunks_overflow_counterexample :
    calculateChunks (2 ^ 63 - 1) 1024 = -9007199254740991 ∧
    ⌈(2 ^ 63 - 1 : ℚ) / 1024⌉ = 9007199254740992 := by
  constructor
  · decide
  · rw [Int.ceil_eq_iff]
    norm_num

lemma wrap64_congr_sub_one (x : Int) : wrap64 (wrap64 x - 1) = wrap64 (x - 1) := by
  unfold wrap64
  congr 1
  have h1 : (x + 2 ^ 63) % 2 ^ 64 - 2 ^ 63 - 1 + 2 ^ 63 = (x + 2 ^ 63) % 2 ^ 64 - 1 := by
    ring
  rw [h1, Int.sub_emod, Int.emod_emod_of_dvd _ (dvd_refl _), ← Int.sub_emod]
  congr 1
  ring

/-- Claim C8, amended: for all fileSize and chunkSize with fileSize
nonnegative, chunkSize positive and no int64 overflow in the
intermediate sum fileSize + chunkSize - 1, calculateChunks equals the
ceiling of fileSize / chunkSize, and it is zero exactly when fileSize
is zero; the sample points of the claim are instances. -/
theorem calculateChunks_ceil (fileSize chunkSize : Int)
    (hfs : 0 ≤ fileSize) (hcs : 0 < chunkSize)
    (hov : fileSize + chunkSize - 1 < 2 ^ 63) :
    calculateChunks fileSize chunkSize = ⌈(fileSize : ℚ) / (chunkSize : ℚ)⌉ ∧
    (calculateChunks fileSize chunkSize = 0 ↔ fileSize = 0) ∧
    calculateChunks 1024 512 = 2 ∧ calculateChunks 1000 512 = 2 ∧
    calculateChunks 512 512 = 1 ∧ calculateChunks 0 512 = 0 ∧
    calculateChunks 1025 512 = 3 := by
  set a := fileSize + chunkSize - 1 with ha
  have ha0 : 0 ≤ a := by omega
  have hinner : wrap64 (wrap64 (fileSize + chunkSize) - 1) = a := by
    rw [wrap64_congr_sub_one, ← ha, wrap64_eq_self (by omega) hov]
  set q := a / chunkSize with hq
  have hq0 : 0 ≤ q := Int.ediv_nonneg ha0 (le_of_lt hcs)
  have hqle : q ≤ a := Int.ediv_le_self _ ha0
  have hcalc : calculateChunks fileSize chunkSize = q := by
    rw [calculateChunks, hinner, Int.tdiv_eq_ediv ha0 (le_of_lt hcs), ← hq,
      wrap64_eq_self (by omega) (by omega)]
  have hmod := Int.ediv_add_emod a chunkSize
  have hr0 : 0 ≤ a % chunkSize := Int.emod_nonneg a (by omega)
  have hrlt : a % chunkSize < chunkSize := Int.emod_lt_of_pos a hcs
  have hceil : ⌈(fileSize : ℚ) / (chunkSize : ℚ)⌉ = q := by
    rw [Int.ceil_eq_iff]
    have hcsq : (0 : ℚ) < (chunkSize : ℚ) := by exact_mod_cast hcs
    constructor
    · rw [lt_div_iff₀ hcsq]
      have h1 : chunkSize * (q - 1) < fileSize := by nlinarith [hmod, hr0]
      have h2 : (chunkSize : ℚ) * ((q : ℚ) - 1) < (fileSize : ℚ) := by exact_mod_cast h1
      linarith [h2]
    · rw [div_le_iff₀ hcsq]
      have h1 : fileSize ≤ chunkSize * q := by nlinarith [hmod, hrlt]
      have h2 : (fileSize : ℚ) ≤ (chunkSize : ℚ) * (q : ℚ) := by exact_mod_cast h1
      linarith [h2]
  refine ⟨by rw [hcalc, hceil], ?_, by decide, by decide, by decide, by decide, by decide⟩
  rw [hcalc]
  constructor
  · intro h0
    by_contra hne
    have hfs1 : 1 ≤ fileSize := by omega
    have : chunkSize ≤ a := by omega
    have : 1 ≤ q := by
      have := Int.ediv_le_ediv hcs this
      rwa [Int.ediv_self (by omega)] at this
    omega
  · intro h0
    have : a = chunkSize - 1 := by omega
    rw [hq, this]
    exact Int.ediv_eq_zero_of_lt (by omega) (by omega)

/-- Concrete instantiation of the amended chunk-count theorem at the
sample point (1024, 512). -/
theorem calculateChunks_ceil_witness :
    calculateChunks 1024 512 = ⌈(1024 : ℚ) / (512 : ℚ)⌉ :=
  (calculateChunks_ceil 1024 512 (by norm_num) (by norm_num) (by norm_num)).1

/-! ## Checkpoint persistence (checkpoint.go) -/

/-- A wall-clock instant, seconds and nanoseconds.  Go's time.Time
marshals to JSON as an RFC 3339 string with nanosecond resolution
(RFC3339Nano), so precisely this wall-clock data survives a JSON round
trip: the serialization format's precision is one nanosecond, and the
monotonic clock reading (which GoTime does not model) is dropped. -/
structure GoTime where
  sec : Int
  nsec : Int
deriving DecidableEq, Repr

/-- Checkpoint (checkpoint.go:27-41), with the json tags of the source
recorded in marshalCheckpoint below. -/
structure Checkpoint where
  LocalPath : String
  RemotePath : String
  UploadID : String
  FileSize : Int
  ChunkSize : Int
  BytesUploaded : Int
  ChunksUploaded : Int
  TotalChunks : Int
  Timestamp : GoTime
  ConfigChunkSize : Int
  ConfigSkipExisting : Bool
  ConfigMaxRetries : Int
deriving DecidableEq, Repr

/-- A JSON document, modelled structurally.  The encoding/json package
is Go standard library, not repository code; following the contract
the specification states for the persisted representation (a
self-describing record with stable field names), documents are
modelled as structured values and the byte-level rendering is left to
the collaborator.  A timestamp value stands for the RFC3339Nano string
Go produces for a time.Time; it carries the wall clock at nanosecond
precision, which is exactly what that string representation preserves. -/
inductive JsonVal where
  | jnum (n : Int)
  | jstr (s : String)
  | jbool (b : Bool)
  | jtime (sec nsec : Int)
  | jobj (fields : List (String × JsonVal))

/-- The json.Marshal side of SaveCheckpoint (checkpoint.go:59-66): the
struct serializes to an object keyed by the json tags of Checkpoint. -/
def marshalCheckpoint (cp : Checkpoint) : JsonVal :=
  .jobj [("local_path", .jstr cp.LocalPath),
         ("remote_path", .jstr cp.RemotePath),
         ("upload_id", .jstr cp.UploadID),
         ("file_size", .jnum cp.FileSize),
         ("chunk_size", .jnum cp.ChunkSize),
         ("bytes_uploaded", .jnum cp.BytesUploaded),
         ("chunks_uploaded", .jnum cp.ChunksUploaded),
         ("total_chunks", .jnum cp.TotalChunks),
         ("timestamp", .jtime cp.Timestamp.sec cp.Timestamp.nsec),
         ("config_chunk_size", .jnum cp.ConfigChunkSize),
         ("config_skip_existing", .jbool cp.ConfigSkipExisting),
         ("config_max_retries", .jnum cp.ConfigMaxRetries)]

/-- Decode one string field of a JSON object. -/
def getStr (fields : List (String × JsonVal)) (key : String) : Option String :=
  match fields.lookup key with
  | some (.jstr s) => some s
  | _ => none

/-- Decode one integer field of a JSON object. -/
def getNum (fields : List (String × JsonVal)) (key : String) : Option Int :=
  match fields.lookup key with
  | some (.jnum n) => some n
  | _ => none

/-- Decode one boolean field of a JSON object. -/
def getBool (fields : List (String × JsonVal)) (key : String) : Option Bool :=
  match fields.lookup key with
  | some (.jbool b) => some b
  | _ => none

/-- Decode one timestamp field of a JSON object. -/
def getTime (fields : List (String × JsonVal)) (key : String) : Option GoTime :=
  match fields.lookup key with
  | some (.jtime sec nsec) => some ⟨sec, nsec⟩
  | _ => none

/-- The json.Unmarshal side of LoadCheckpoint (checkpoint.go:84-97):
re-parse the same structure, field by field. -/
def unmarshalCheckpoint : JsonVal → Option Checkpoint
  | .jobj fields => do
    let localPath ← getStr fields "local_path"
    let remotePath ← getStr fields "remote_path"
    let uploadID ← getStr fields "upload_id"
    let fileSize ← getNum fields "file_size"
    let chunkSize ← getNum fields "chunk_size"
    let bytesUploaded ← getNum fields "bytes_uploaded"
    let chunksUploaded ← getNum fields "chunks_uploaded"
    let totalChunks ← getNum fields "total_chunks"
    let timestamp ← getTime fields "timestamp"
    let configChunkSize ← getNum fields "config_chunk_size"
    let configSkipExisting ← getBool fields "config_skip_existing"
    let configMaxRetries ← getNum fields "config_max_retries"
    pure { LocalPath := localPath, RemotePath := remotePath, UploadID := uploadID,
           FileSize := fileSize, ChunkSize := chunkSize, BytesUploaded := bytesUploaded,
           ChunksUploaded := chunksUploaded, TotalChunks := totalChunks,
           Timestamp := timestamp, ConfigChunkSize := configChunkSize,
           ConfigSkipExisting := configSkipExisting, ConfigMaxRetries := configMaxRetries }
  | _ => none

/-- The store SaveCheckpoint writes into with os.WriteFile and
LoadCheckpoint reads from with os.ReadFile: a map from file paths to
stored documents (the local filesystem is an external collaborator). -/
def CheckpointStore : Type := String → Option JsonVal

/-- SaveCheckpoint (checkpoint.go:59-66): marshal and write to the
given path. -/
def SaveCheckpoint (cp : Checkpoint) (filePath : String) (store : CheckpointStore) :
    CheckpointStore :=
  fun p => if p = filePath then some (marshalCheckpoint cp) else store p

/-- LoadCheckpoint (checkpoint.go:84-97): read the file at the given
path and unmarshal it; a missing file or a document that does not
decode is an error (none). -/
def LoadCheckpoint (filePath : String) (store : CheckpointStore) : Option Checkpoint :=
  match store filePath with
  | none => none
  | some doc => unmarshalCheckpoint doc

/-- Claim C4: the checkpoint round trip.  Loading the path just saved
returns a checkpoint equal to the original in every field; for the
timestamp, the serialization format carries the wall clock at
nanosecond precision, so truncation to the format's precision is the
identity and the loaded timestamp equals the original exactly. -/
theorem checkpoint_roundtrip (cp : Checkpoint) (filePath : String)
    (store : CheckpointStore) :
    LoadCheckpoint filePath (SaveCheckpoint cp filePath store) = some cp := by
  simp [LoadCheckpoint, SaveCheckpoint, marshalCheckpoint, unmarshalCheckpoint,
    getStr, getNum, getBool, getTime, List.lookup]

/-! ## Upload manager (upload_manager.go) -/

/-- Session statuses, from types.go. -/
inductive UploadStatus where
  | queued
  | running
  | paused
  | completed
  | failed
  | cancelled
deriving DecidableEq, Repr

/-- An UploadSession (upload_manager.go:124-134), reduced to the fields
the verified properties observe: the status and the session controller.
ID, LocalPath, RemotePath, Client, Config and the two timestamps do not
affect the claims. -/
structure UploadSession where
  Status : UploadStatus
  Controller : UploadController
deriving DecidableEq, Repr

/-- The UploadManager (upload_manager.go:117-121): the session map,
modelled as a function from session ids, plus the global controller's
globalPaused flag. -/
structure UploadManager where
  sessions : String → Option UploadSession
  globalPaused : Bool

/-- UploadManager.PauseUpload (upload_manager.go:240-257): error if the
session is unknown or not running, otherwise pause its controller and
mark it paused. -/
def UploadManager.PauseUpload (um : UploadManager) (sessionID : String) :
    Except String UploadManager :=
  match um.sessions sessionID with
  | none => .error ("session " ++ sessionID ++ " not found")
  | some s =>
    if s.Status ≠ .running then .error ("session " ++ sessionID ++ " is not running")
    else .ok { um with sessions := fun id =>
      (if id = sessionID then some { Status := .paused, Controller := s.Controller.Pause }
       else um.sessions id) }

/-- UploadManager.ResumeUpload (upload_manager.go:260-277): error if the
session is unknown or not paused, otherwise resume its controller and
mark it running. -/
def UploadManager.ResumeUpload (um : UploadManager) (sessionID : String) :
    Except String UploadManager :=
  match um.sessions sessionID with
  | none => .error ("session " ++ sessionID ++ " not found")
  | some s =>
    if s.Status ≠ .paused then .error ("session " ++ sessionID ++ " is not paused")
    else .ok { um with sessions := fun id =>
      (if id = sessionID then some { Status := .running, Controller := s.Controller.Resume }
       else um.sessions id) }

/-- UploadManager.PauseAllUploads (upload_manager.go:280-295): set the
global flag and pause every running session. -/
def UploadManager.PauseAllUploads (um : UploadManager) : UploadManager :=
  { sessions := fun id =>
      (um.sessions id).map fun s =>
        if s.Status = .running then
          { Status := .paused, Controller := s.Controller.Pause }
        else s,
    globalPaused := true }

/-- UploadManager.ResumeAllUploads (upload_manager.go:298-313): clear
the global flag and resume every paused session. -/
def UploadManager.ResumeAllUploads (um : UploadManager) : UploadManager :=
  { sessions := fun id =>
      (um.sessions id).map fun s =>
        if s.Status = .paused then
          { Status := .running, Controller := s.Controller.Resume }
        else s,
    globalPaused := false }

/-- UploadManager.RemoveUploadSession (upload_manager.go:346-361): error
if the session is unknown or running, otherwise delete it. -/
def UploadManager.RemoveUploadSession (um : UploadManager) (sessionID : String) :
    Except String UploadManager :=
  match um.sessions sessionID with
  | none => .error ("session " ++ sessionID ++ " not found")
  | some s =>
    if s.Status = .running then .error ("cannot remove running session " ++ sessionID)
    else .ok { um with sessions := fun id =>
      (if id = sessionID then none else um.sessions id) }

/-- UploadManager.IsGloballyPaused (upload_manager.go:364-368). -/
def UploadManager.IsGloballyPaused (um : UploadManager) : Bool :=
  um.globalPaused

/-- Claim C6: the manager's status preconditions and global pause
semantics.  PauseUpload errors unless the session exists and is
running (the error path returns no modified manager, so every session
is left unchanged); ResumeUpload errors unless paused;
RemoveUploadSession errors on a running session; after PauseAllUploads
every previously running session is paused, its controller has had
Pause applied (so a running controller ends paused), and
IsGloballyPaused holds; after ResumeAllUploads every previously paused
session is running and IsGloballyPaused is false. -/
theorem uploadManager_invariants (um : UploadManager) (sessionID : String) :
    (um.sessions sessionID = none →
      (∃ msg, um.PauseUpload sessionID = .error msg) ∧
      (∃ msg, um.ResumeUpload sessionID = .error msg) ∧
      (∃ msg, um.RemoveUploadSession sessionID = .error msg)) ∧
    (∀ s, um.sessions sessionID = some s → s.Status ≠ .running →
      ∃ msg, um.PauseUpload sessionID = .error msg) ∧
    (∀ s, um.sessions sessionID = some s → s.Status ≠ .paused →
      ∃ msg, um.ResumeUpload sessionID = .error msg) ∧
    (∀ s, um.sessions sessionID = some s → s.Status = .running →
      ∃ msg, um.RemoveUploadSession sessionID = .error msg) ∧
    (∀ s, um.sessions sessionID = some s → s.Status = .running →
      um.PauseAllUploads.sessions sessionID =
        some { Status := .paused, Controller := s.Controller.Pause } ∧
      (s.Controller.state = .running → s.Controller.Pause.state = .paused)) ∧
    um.PauseAllUploads.IsGloballyPaused = true ∧
    (∀ s, um.sessions sessionID = some s → s.Status = .paused →
      um.ResumeAllUploads.sessions sessionID =
        some { Status := .running, Controller := s.Controller.Resume }) ∧
    um.ResumeAllUploads.IsGloballyPaused = false := by
  refine ⟨?_, ?_, ?_, ?_, ?_, rfl, ?_, rfl⟩
  · intro hnone
    refine ⟨?_, ?_, ?_⟩ <;>
      simp [UploadManager.PauseUpload, UploadManager.ResumeUpload,
        UploadManager.RemoveUploadSession, hnone]
  · intro s hs hst
    simp [UploadManager.PauseUpload, hs, hst]
  · intro s hs hst
    simp [UploadManager.ResumeUpload, hs, hst]
  · intro s hs hst
    simp [UploadManager.RemoveUploadSession, hs, hst]
  · intro s hs hst
    refine ⟨?_, ?_⟩
    · simp [UploadManager.PauseAllUploads, hs, hst]
    · intro hc
      simp [UploadController.Pause, hc]
  · intro s hs hst
    simp [UploadManager.ResumeAllUploads, hs, hst]

/-- A concrete manager with one running and one paused session. -/
def demoManager : UploadManager :=
  { sessions := fun id =>
      if id = "a" then some { Status := .running, Controller := NewSimpleUploadController }
      else if id = "b" then
        some { Status := .paused, Controller := NewSimpleUploadController.Pause }
      else none,
    globalPaused := false }

/-- Concrete instantiation of the manager invariants: the running
session cannot be removed, and pausing everything pauses it and raises
the global flag. -/
theorem uploadManager_invariants_witness :
    (∃ msg, demoManager.RemoveUploadSession "a" = .error msg) ∧
    demoManager.PauseAllUploads.sessions "a" =
      some { Status := .paused, Controller := NewSimpleUploadController.Pause } ∧
    demoManager.PauseAllUploads.IsGloballyPaused = true := by
  have h := uploadManager_invariants demoManager "a"
  have hs : demoManager.sessions "a" =
      some { Status := .running, Controller := NewSimpleUploadController } := rfl
  exact ⟨h.2.2.2.1 _ hs rfl, (h.2.2.2.2.1 _ hs rfl).1, h.2.2.2.2.2.1⟩

/-! ## Remote-path sanitization (utils.go:1427-1451)

Strings are handled here on their character-list representation, so
that the splitting and joining done by the source can be reasoned
about by list induction; sanitizeRemotePathStr packages the result
back into a String for the engine. -/

/-- Go strings.Split(s, "/"): the list of (possibly empty) segments of
s between slashes; splitting the empty string yields one empty
segment. -/
def splitSlash : List Char → List (List Char)
  | [] => [[]]
  | c :: cs =>
    if c = '/' then [] :: splitSlash cs
    else
      match splitSlash cs with
      | [] => [[c]]
      | seg :: rest => (c :: seg) :: rest

/-- Go strings.Join(l, "/"). -/
def joinSlash : List (List Char) → List Char
  | [] => []
  | [seg] => seg
  | seg :: rest => seg ++ '/' :: joinSlash rest

/-- Model of Go path.Clean on a rooted path, as a segment stack.
path.Clean is Go standard library, not repository code; its documented
cleaning rules for rooted paths are: repeated slashes collapse,
single-dot segments vanish, a double-dot segment erases the segment
before it, and double-dots at the root vanish.  The result below is
the cleaned segment list; the caller re-attaches or trims the root
slash.  Empty segments (from repeated slashes) and dot segments are
skipped, a double-dot pops the stack (a no-op at the root), and every
other segment is kept. -/
def cleanSegs (segs : List (List Char)) : List (List Char) :=
  segs.foldl
    (fun stack seg =>
      if seg = [] then stack
      else if seg = ['.'] then stack
      else if seg = ['.', '.'] then stack.dropLast
      else stack ++ [seg]) []

/-- Go strings.TrimSpace, restricted to the ASCII whitespace characters
Lean's Char.isWhitespace recognizes (space, tab, newline, carriage
return); the further Unicode space classes Go also trims play no role
in the verified properties. -/
def trimSpaceGo (s : List Char) : List Char :=
  ((s.dropWhile Char.isWhitespace).reverse.dropWhile Char.isWhitespace).reverse

/-- The files/<user>/ prefix stripping of sanitizeRemotePath
(utils.go:1433-1441): if the path starts with files/, drop its first
two segments when it has at least three, and otherwise empty it. -/
def stripFilesPrefix (p2 : List Char) : List Char :=
  if ("files/".data).isPrefixOf p2 then
    (if 3 ≤ (splitSlash p2).length then joinSlash ((splitSlash p2).drop 2) else [])
  else p2

/-- Go strings.Contains on character lists: does the needle occur as a
contiguous sublist of the haystack. -/
def containsChars (needle : List Char) : List Char → Bool
  | [] => needle.isEmpty
  | c :: rest => needle.isPrefixOf (c :: rest) || containsChars needle rest

/-- The tail of sanitizeRemotePath (utils.go:1442-1450): clean the
rooted form of the path (path.Clean of "/" followed by the path, with
the leading slash of the result trimmed again), then empty out any
result that still is, starts with, or contains a dot-dot segment. -/
def finishClean (p3 : List Char) : List Char :=
  let cleaned := joinSlash (cleanSegs (splitSlash p3))
  if cleaned = ['.', '.'] || ("../".data).isPrefixOf cleaned
      || containsChars ("/../".data) cleaned then [] else cleaned

/-- sanitizeRemotePath (utils.go:1429-1451): trim whitespace, drop one
leading slash, strip a leading files/<segment>/ prefix, then clean and
reject traversal. -/
def sanitizeRemotePath (p : List Char) : List Char :=
  let p1 := trimSpaceGo p
  let p2 := if p1.head? = some '/' then p1.tail else p1
  finishClean (stripFilesPrefix p2)

/-- sanitizeRemotePath on Strings, for use inside the engine. -/
def sanitizeRemotePathStr (s : String) : String :=
  ⟨sanitizeRemotePath s.data⟩

lemma splitSlash_ne_nil (s : List Char) : splitSlash s ≠ [] := by
  cases s with
  | nil => simp [splitSlash]
  | cons c cs =>
    rw [splitSlash]
    split
    · simp
    · split <;> simp

lemma mem_splitSlash (s : List Char) : ∀ seg ∈ splitSlash s, '/' ∉ seg := by
  induction s with
  | nil => intro seg hseg; simp [splitSlash] at hseg; simp [hseg]
  | cons c cs ih =>
    intro seg hseg
    rw [splitSlash] at hseg
    by_cases hc : c = '/'
    · rw [if_pos hc] at hseg
      rcases List.mem_cons.mp hseg with rfl | h
      · simp
      · exact ih seg h
    · rw [if_neg hc] at hseg
      rcases hsplit : splitSlash cs with _ | ⟨a, rest⟩
      · exact absurd hsplit (splitSlash_ne_nil cs)
      · rw [hsplit] at hseg
        rcases List.mem_cons.mp hseg with rfl | h
        · intro hmem
          rcases List.mem_cons.mp hmem with rfl | h2
          · exact hc rfl
          · exact ih a (by rw [hsplit]; exact List.mem_cons_self _ _) h2
        · exact ih seg (by rw [hsplit]; exact List.mem_cons_of_mem _ h)

lemma splitSlash_no_sep (a : List Char) (h : '/' ∉ a) : splitSlash a = [a] := by
  induction a with
  | nil => rfl
  | cons c cs ih =>
    have hc : c ≠ '/' := fun hcc => h (by simp [hcc])
    rw [splitSlash, if_neg hc, ih (fun hmem => h (List.mem_cons_of_mem _ hmem))]

lemma splitSlash_append (a t : List Char) (h : '/' ∉ a) :
    splitSlash (a ++ '/' :: t) = a :: splitSlash t := by
  induction a with
  | nil => simp [splitSlash]
  | cons c cs ih =>
    have hc : c ≠ '/' := fun hcc => h (by simp [hcc])
    rw [List.cons_append, splitSlash, if_neg hc,
      ih (fun hmem => h (List.mem_cons_of_mem _ hmem))]

lemma splitSlash_joinSlash (l : List (List Char)) (hne : l ≠ [])
    (h : ∀ seg ∈ l, '/' ∉ seg) : splitSlash (joinSlash l) = l := by
  induction l with
  | nil => exact absurd rfl hne
  | cons a rest ih =>
    cases rest with
    | nil => exact splitSlash_no_sep a (h a (List.mem_cons_self _ _))
    | cons b rest2 =>
      have hih := ih (List.cons_ne_nil b rest2)
        (fun seg hseg => h seg (List.mem_cons_of_mem _ hseg))
      have hj : joinSlash (a :: b :: rest2) = a ++ '/' :: joinSlash (b :: rest2) := rfl
      rw [hj, splitSlash_append _ _ (h a (List.mem_cons_self _ _)), hih]

lemma cleanSegs_go (l : List (List Char)) (acc : List (List Char))
    (hl : ∀ seg ∈ l, '/' ∉ seg)
    (hacc : ∀ seg ∈ acc, seg ≠ [] ∧ seg ≠ ['.', '.'] ∧ '/' ∉ seg) :
    ∀ seg ∈ l.foldl
      (fun stack seg =>
        if seg = [] then stack
        else if seg = ['.'] then stack
        else if seg = ['.', '.'] then stack.dropLast
        else stack ++ [seg]) acc,
      seg ≠ [] ∧ seg ≠ ['.', '.'] ∧ '/' ∉ seg := by
  induction l generalizing acc with
  | nil => simpa using hacc
  | cons x xs ih =>
    intro seg hseg
    rw [List.foldl_cons] at hseg
    refine ih _ (fun s hs => hl s (List.mem_cons_of_mem _ hs)) ?_ seg hseg
    by_cases h0 : x = []
    · simpa [h0] using hacc
    by_cases h1 : x = ['.']
    · simpa [h0, h1] using hacc
    by_cases h2 : x = ['.', '.']
    · simp only [h0, h1, h2, if_false, if_true, if_neg, reduceIte]
      intro s hs
      exact hacc s (List.dropLast_subset _ hs)
    · simp only [h0, h1, h2, if_false, reduceIte]
      intro s hs
      rcases List.mem_append.mp hs with hs | hs
      · exact hacc s hs
      · rw [List.mem_singleton.mp hs]
        exact ⟨h0, h2, hl x (List.mem_cons_self _ _)⟩

lemma cleanSegs_mem (segs : List (List Char)) (h : ∀ seg ∈ segs, '/' ∉ seg) :
    ∀ seg ∈ cleanSegs segs, seg ≠ [] ∧ seg ≠ ['.', '.'] ∧ '/' ∉ seg :=
  cleanSegs_go segs [] h (by simp)

lemma joinSlash_head (l : List (List Char))
    (h : ∀ seg ∈ l, seg ≠ [] ∧ '/' ∉ seg) : (joinSlash l).head? ≠ some '/' := by
  cases l with
  | nil => simp [joinSlash]
  | cons a rest =>
    have ha := h a (List.mem_cons_self _ _)
    rcases hcons : a with _ | ⟨c, cs⟩
    · exact absurd hcons ha.1
    have hc : c ≠ '/' := fun hcc => ha.2 (by rw [hcons, hcc]; exact List.mem_cons_self _ _)
    cases rest with
    | nil => simpa [joinSlash, hcons] using hc
    | cons b rest2 => simpa [joinSlash, hcons] using hc

lemma finishClean_safe (p3 : List Char) :
    (finishClean p3).head? ≠ some '/' ∧
    ∀ seg ∈ splitSlash (finishClean p3), seg ≠ ['.', '.'] := by
  rw [finishClean]
  set stack := cleanSegs (splitSlash p3) with hstack
  have hinv := cleanSegs_mem (splitSlash p3) (mem_splitSlash p3)
  rw [← hstack] at hinv
  split
  · constructor
    · simp
    · intro seg hseg
      simp [splitSlash] at hseg
      simp [hseg]
  · constructor
    · exact joinSlash_head stack (fun seg hseg => ⟨(hinv seg hseg).1, (hinv seg hseg).2.2⟩)
    · rcases hst : stack with _ | ⟨a, rest⟩
      · intro seg hseg
        simp [hst, joinSlash, splitSlash] at hseg
        simp [hseg]
      · rw [← hst,
          splitSlash_joinSlash stack (by rw [hst]; simp)
            (fun seg hseg => (hinv seg hseg).2.2)]
        exact fun seg hseg => (hinv seg hseg).2.1

/-! ## The chunked upload engine (client.go uploadFileCore,
chunked_upload.go uploadChunked)

The engine interacts with external collaborators: the WebDAV transport
(MkdirAll, Stat, Write, Rename, RemoveAll), the local file, the
context, and the controller written to by other threads.  These are
supplied as an environment of oracles.  The run's observable behaviour
is its result together with a trace of transport calls, lifecycle
events and progress reports.  Local-file operations (open, stat, seek,
read) are modelled as succeeding, chunk payloads are modelled by their
byte count (no verified property inspects chunk bytes), the checkpoint
callback and the OC-Total-Length header are side observations with no
effect on control flow and are not traced, and the buffer pool only
affects allocation. -/

/-- UploadError (errors.go:5-11). -/
structure UploadError where
  Op : String
  Path : String
  Err : String
  Retries : Int
deriving DecidableEq, Repr

/-- UploadError.Error (errors.go:13-18). -/
def UploadError.message (e : UploadError) : String :=
  if 0 < e.Retries then
    e.Op ++ " " ++ e.Path ++ ": " ++ e.Err ++ " (after " ++ toString e.Retries
      ++ " retries)"
  else e.Op ++ " " ++ e.Path ++ ": " ++ e.Err

/-- The errors an engine run can return.  outOfFuel is an artifact of
the fuel-bounded embedding of the Go for-loop and is unreachable
whenever the supplied fuel is at least the number of remaining chunks. -/
inductive EngineErr where
  | ctxCanceled
  | invalidRemotePath
  | mkcolFailed (path msg : String)
  | chunkUpload (e : UploadError)
  | cancelled
  | pausedTimeout
  | finalizeMoveFailed (src dst msg : String)
  | outOfFuel
deriving DecidableEq, Repr

/-- One observable transport call. -/
inductive Call where
  | mkcol (path : String)
  | stat (path : String)
  | write (path : String) (size : Int)
  | rename (src dst : String)
  | removeAll (path : String)
deriving DecidableEq, Repr

/-- The lifecycle events of types.go, as emitted through emitEvent. -/
inductive EventKind where
  | uploadStarted
  | chunkUploaded
  | chunksComplete
  | moveStarted
  | moveComplete
  | uploadComplete
  | uploadFailed
  | uploadSkipped
  | uploadPaused
  | uploadResumed
deriving DecidableEq, Repr

/-- ProgressInfo (types.go), reduced to the numeric payload; Filename
and SessionID are string labels with no bearing on the claims.  The
percentage is modelled as an exact rational; the Go code computes it in
float64, and at every percentage a verified property mentions
(40, 80, 100) the float64 computation is exact, so the models agree
there. -/
structure ProgressInfo where
  Current : Int
  Total : Int
  Percentage : ℚ
  ChunkIndex : Int
  TotalChunks : Int
deriving DecidableEq, Repr

/-- The observable trace of one engine run. -/
structure Trace where
  calls : List Call
  events : List EventKind
  progress : List ProgressInfo
deriving DecidableEq, Repr

/-- The empty trace. -/
def Trace.empty : Trace := ⟨[], [], []⟩

/-- Trace concatenation, componentwise and in order. -/
def Trace.app (t u : Trace) : Trace :=
  ⟨t.calls ++ u.calls, t.events ++ u.events, t.progress ++ u.progress⟩

instance : Append Trace := ⟨Trace.app⟩

@[simp] lemma Trace.app_def (t u : Trace) :
    t ++ u = ⟨t.calls ++ u.calls, t.events ++ u.events, t.progress ++ u.progress⟩ :=
  rfl

/-- The environment of one engine run: the authenticated user, the
local file size, the transport oracles (Stat results by path, MkdirAll
errors by path, Write errors by global write-call index, the final
Rename's error), the context-done flag (constant over the run), the
upload id newUploadID would mint, and the controller as observed by
the engine: a snapshot per loop iteration plus the controller
operations other threads perform while the engine is blocked in that
iteration's pause wait. -/
structure Env where
  username : String
  localSize : Int
  remoteStat : String → Option (Int × Bool)
  mkcolErr : String → Option String
  writeErr : Nat → Option String
  renameErr : Option String
  ctxDone : Bool
  freshUploadID : String
  hasController : Bool
  ctrlAt : Nat → UploadController
  waitOps : Nat → List CtrlOp

/-- The engine-relevant, already validated configuration (types.go
Config).  Callback fields appear as presence flags (the engine only
branches on their nil-ness); the controller is observed through Env. -/
structure Config where
  ChunkSize : Int
  SkipExisting : Bool
  MaxRetries : Int
  hasProgressFunc : Bool
  ResumeFromCheckpoint : Option Checkpoint

/-- pathJoin (utils.go:1458-1468): strip one trailing slash of a and
one leading slash of b (Go strings.TrimSuffix and strings.TrimPrefix),
then join with a slash unless one side is empty. -/
def pathJoin (a b : String) : String :=
  let a1 := if a.data.getLast? = some '/' then (⟨a.data.dropLast⟩ : String) else a
  let b1 := if b.data.head? = some '/' then (⟨b.data.tail⟩ : String) else b
  if a1 = "" then b1 else if b1 = "" then a1 else a1 ++ "/" ++ b1

/-- Go strings.Trim(s, "/"): strip all leading and trailing slashes. -/
def trimSlashes (s : String) : String :=
  ⟨((s.data.dropWhile (· = '/')).reverse.dropWhile (· = '/')).reverse⟩

/-- pathJoinMany (utils.go:1470-1486). -/
def pathJoinMany (parts : List String) : String :=
  parts.foldl
    (fun out p =>
      if p = "" then out
      else if out = "" then trimSlashes p
      else out ++ "/" ++ trimSlashes p) ""

/-- dirOf (utils.go:1488-1493): the prefix before the last slash, or
the empty string when there is no slash. -/
def dirOf (p : String) : String :=
  match p.data.reverse.dropWhile (fun c => c ≠ '/') with
  | [] => ""
  | _ :: rest => ⟨rest.reverse⟩

/-- isAlreadyExists (utils.go:1495-1501): heuristic detection of an
already-exists transport error by substring matching on the error
text. -/
def isAlreadyExists (msg : String) : Bool :=
  containsChars ("exists".data) msg.data || containsChars ("405".data) msg.data
    || containsChars ("409".data) msg.data

/-- Outcome of the engine's pause wait. -/
inductive WaitOutcome where
  | resumed
  | timedOut
deriving DecidableEq, Repr

/-- The pause wait (chunked_upload.go:137-143): the engine blocks in a
select listening only on the controller's resumeCh and a one-hour
timer.  A resume signal may already sit in the one-slot buffer when
the engine arrives, or be sent by a controller operation performed
during the wait; Resume is the only operation that sends, and no
operation clears the buffer, so the engine resumes exactly when the
controller, after the replayed operations, carries a buffered resume
signal — and otherwise the timer fires. -/
def pauseWaitOutcome (uc : UploadController) (ops : List CtrlOp) : WaitOutcome :=
  if (applyCtrlOps uc ops).resumeSig then .resumed else .timedOut

/-- The per-iteration controller decision. -/
inductive CtrlOutcome where
  | proceed (t : Trace)
  | abort (e : EngineErr) (t : Trace)

/-- The controller check at the top of each chunk iteration
(chunked_upload.go:112-150).  On Paused: emit the paused event, let
CheckpointFunc observe a checkpoint (untraced), then wait; resuming
emits the resumed event and falls through to the chunk send, while the
one-hour timeout aborts with the paused-timeout error.  On Cancelled:
remove the staging collection and abort with the cancellation error.
On Running (no case in the Go switch): proceed. -/
def controllerCheck (env : Env) (uploadBase : String) (iter : Nat) : CtrlOutcome :=
  if env.hasController then
    match (env.ctrlAt iter).state with
    | .paused =>
      match pauseWaitOutcome (env.ctrlAt iter) (env.waitOps iter) with
      | .resumed => .proceed ⟨[], [.uploadPaused, .uploadResumed], []⟩
      | .timedOut => .abort .pausedTimeout ⟨[], [.uploadPaused], []⟩
    | .cancelled => .abort .cancelled ⟨[.removeAll uploadBase], [], []⟩
    | .running => .proceed Trace.empty
  else .proceed Trace.empty

/-- The retry loop for one chunk (chunked_upload.go:162-182): up to
MaxRetries + 1 write attempts, re-checking the context before each
one; attempts counts the loop iterations remaining and wc indexes the
write oracle in global call order.  Returns the write calls issued,
the advanced counter, and a context abort or the final value of
uploadErr (none when the chunk was written; with a negative MaxRetries
the Go loop body never runs and uploadErr stays nil). -/
def retryLoop (env : Env) (chunkPath : String) (payload : Int) :
    Nat → Nat → List Call × Nat × Except EngineErr (Option String)
  | wc, 0 => ([], wc, .ok none)
  | wc, attempts + 1 =>
    if env.ctxDone then ([], wc, .error .ctxCanceled)
    else
      match env.writeErr wc with
      | none => ([.write chunkPath payload], wc + 1, .ok none)
      | some msg =>
        if attempts = 0 then ([.write chunkPath payload], wc + 1, .ok (some msg))
        else
          let r := retryLoop env chunkPath payload (wc + 1) attempts
          (.write chunkPath payload :: r.1, r.2.1, r.2.2)

/-- The engine's chunk-loop state: the byte offset of the next chunk,
bytes sent, chunks sent, the global write-call counter and the loop
iteration index (the latter two index the environment's oracles). -/
structure LoopState where
  offset : Int
  sent : Int
  chunkIndex : Int
  wc : Nat
  iter : Nat

/-- The chunk-send loop of uploadChunked (chunked_upload.go:105-244):
while the offset is below the file size — context check, controller
check, read min(chunkSize, remaining) bytes, retry-write the chunk to
the staging path named by the decimal offset, then bookkeeping, the
chunk-uploaded event, a progress report when a progress callback is
configured, the periodic checkpoint (untraced), and the next
iteration.  fuel bounds the iteration count (see EngineErr.outOfFuel). -/
def chunkLoop (env : Env) (cfg : Config) (uploadBase : String)
    (total totalChunks : Int) :
    Nat → LoopState → Except EngineErr Unit × Trace
  | 0, st =>
    if st.offset < total then (.error .outOfFuel, Trace.empty)
    else (.ok (), Trace.empty)
  | fuel + 1, st =>
    if st.offset < total then
      if env.ctxDone then (.error .ctxCanceled, Trace.empty)
      else
        match controllerCheck env uploadBase st.iter with
        | .abort e t => (.error e, t)
        | .proceed t0 =>
          let want := min cfg.ChunkSize (total - st.offset)
          let chunkPath := pathJoin uploadBase (toString st.offset)
          let r := retryLoop env chunkPath want st.wc (cfg.MaxRetries + 1).toNat
          let tWrites : Trace := ⟨r.1, [], []⟩
          match r.2.2 with
          | .error e => (.error e, t0 ++ tWrites)
          | .ok (some msg) =>
            (.error (.chunkUpload
              { Op := "chunk upload", Path := chunkPath, Err := msg,
                Retries := cfg.MaxRetries }),
             t0 ++ tWrites)
          | .ok none =>
            let sent := st.sent + want
            let chunkIndex := st.chunkIndex + 1
            let tEv : Trace := ⟨[], [.chunkUploaded], []⟩
            let tProg : Trace :=
              if cfg.hasProgressFunc then
                ⟨[], [],
                 [{ Current := sent, Total := total,
                    Percentage := (sent : ℚ) / (total : ℚ) * 100,
                    ChunkIndex := chunkIndex - 1, TotalChunks := totalChunks }]⟩
              else Trace.empty
            let rest := chunkLoop env cfg uploadBase total totalChunks fuel
              { offset := st.offset + cfg.ChunkSize, sent := sent,
                chunkIndex := chunkIndex, wc := r.2.1, iter := st.iter + 1 }
            (rest.1, t0 ++ tWrites ++ tEv ++ tProg ++ rest.2)
    else (.ok (), Trace.empty)

/-- uploadChunked (chunked_upload.go:28-276): resume bookkeeping or a
fresh upload id with MKCOL of the staging collection, the chunk loop,
then finalize — the chunks-complete and move-started events, a context
check, the MOVE of the assembled object to the destination (on
failure: best-effort removal of the staging collection and a wrapped
finalize error), the move-complete event and cleanup of the staging
collection. -/
def uploadChunked (env : Env) (cfg : Config) (finalPath : String) (fuel : Nat) :
    Except EngineErr Unit × Trace :=
  let setup : Except EngineErr Unit × Trace × String × LoopState :=
    match cfg.ResumeFromCheckpoint with
    | some cp =>
      let uploadBase := pathJoinMany ["uploads", env.username, cp.UploadID]
      (.ok (), ⟨[], [.uploadResumed], []⟩, uploadBase,
        { offset := cp.ChunksUploaded * cfg.ChunkSize, sent := cp.BytesUploaded,
          chunkIndex := cp.ChunksUploaded, wc := 0, iter := 0 })
    | none =>
      let uploadBase := pathJoinMany ["uploads", env.username, env.freshUploadID]
      let st0 : LoopState :=
        { offset := 0, sent := 0, chunkIndex := 0, wc := 0, iter := 0 }
      if env.ctxDone then (.error .ctxCanceled, Trace.empty, uploadBase, st0)
      else
        match env.mkcolErr uploadBase with
        | some msg =>
          if isAlreadyExists msg then
            (.ok (), ⟨[.mkcol uploadBase], [], []⟩, uploadBase, st0)
          else
            (.error (.mkcolFailed uploadBase msg), ⟨[.mkcol uploadBase], [], []⟩,
             uploadBase, st0)
        | none => (.ok (), ⟨[.mkcol uploadBase], [], []⟩, uploadBase, st0)
  match setup with
  | (.error e, t, _, _) => (.error e, t)
  | (.ok _, t, uploadBase, st0) =>
    let total := env.localSize
    let totalChunks := calculateChunks total cfg.ChunkSize
    match chunkLoop env cfg uploadBase total totalChunks fuel st0 with
    | (.error e, tl) => (.error e, t ++ tl)
    | (.ok _, tl) =>
      let tDone : Trace := ⟨[], [.chunksComplete, .moveStarted], []⟩
      if env.ctxDone then (.error .ctxCanceled, t ++ tl ++ tDone)
      else
        let src := pathJoin uploadBase ".file"
        match env.renameErr with
        | some msg =>
          (.error (.finalizeMoveFailed src finalPath msg),
           t ++ tl ++ tDone ++ ⟨[.rename src finalPath, .removeAll uploadBase], [], []⟩)
        | none =>
          (.ok (),
           t ++ tl ++ tDone ++ ⟨[.rename src finalPath], [.moveComplete], []⟩
             ++ ⟨[.removeAll uploadBase], [], []⟩)

/-- uploadFileCore (client.go:165-214 of the modular layout): context
check, the started event, path sanitization with rejection of an empty
result, the optional skip-existing check (Stat of the destination,
compared with the local size), best-effort creation of the destination
directory (its MkdirAll errors are only logged), then uploadChunked
wrapped with the failed or complete event. -/
def uploadFileCore (env : Env) (cfg : Config) (dstPath : String) (fuel : Nat) :
    Except EngineErr Unit × Trace :=
  if env.ctxDone then (.error .ctxCanceled, Trace.empty)
  else
    let t0 : Trace := ⟨[], [.uploadStarted], []⟩
    let cleaned := sanitizeRemotePathStr dstPath
    if cleaned = "" then (.error .invalidRemotePath, t0)
    else
      let finalPath := pathJoinMany ["files", env.username, cleaned]
      let skip : Bool × Trace :=
        if cfg.SkipExisting then
          match env.remoteStat finalPath with
          | some (size, isDir) =>
            if !isDir && size == env.localSize then
              (true, ⟨[.stat finalPath], [.uploadSkipped], []⟩)
            else (false, ⟨[.stat finalPath], [], []⟩)
          | none => (false, ⟨[.stat finalPath], [], []⟩)
        else (false, Trace.empty)
      if skip.1 then (.ok (), t0 ++ skip.2)
      else
        let dir := dirOf finalPath
        let tDir : Trace := if dir ≠ "" then ⟨[.mkcol dir], [], []⟩ else Trace.empty
        match uploadChunked env cfg finalPath fuel with
        | (.error e, tr) =>
          (.error e, t0 ++ skip.2 ++ tDir ++ tr ++ ⟨[], [.uploadFailed], []⟩)
        | (.ok _, tr) =>
          (.ok (), t0 ++ skip.2 ++ tDir ++ tr ++ ⟨[], [.uploadComplete], []⟩)

/-! ## Concrete runs used by the witnesses and counterexamples -/

/-- A transport that accepts everything, for a 25 MiB local file. -/
def c7Env : Env :=
  { username := "alice", localSize := 26214400,
    remoteStat := fun _ => none, mkcolErr := fun _ => none, writeErr := fun _ => none,
    renameErr := none, ctxDone := false, freshUploadID := "web-file-upload-1",
    hasController := false, ctrlAt := fun _ => NewSimpleUploadController,
    waitOps := fun _ => [] }

/-- A 10 MiB chunk size with a progress callback and no resume. -/
def c7Cfg : Config :=
  { ChunkSize := 10485760, SkipExisting := false, MaxRetries := 3,
    hasProgressFunc := true, ResumeFromCheckpoint := none }

/-- A checkpoint for a partially uploaded 25 MiB file. -/
def c2Checkpoint : Checkpoint :=
  { LocalPath := "/tmp/big.bin", RemotePath := "docs/big.bin",
    UploadID := "web-file-upload-7", FileSize := 26214400, ChunkSize := 10485760,
    BytesUploaded := 10485760, ChunksUploaded := 1, TotalChunks := 3,
    Timestamp := ⟨1700000000, 0⟩, ConfigChunkSize := 10485760,
    ConfigSkipExisting := true, ConfigMaxRetries := 3 }

/-- A transport on which the destination already exists with exactly
the local file's size. -/
def c2Env : Env :=
  { username := "alice", localSize := 26214400,
    remoteStat := fun p =>
      if p = "files/alice/docs/big.bin" then some (26214400, false) else none,
    mkcolErr := fun _ => none, writeErr := fun _ => none,
    renameErr := none, ctxDone := false, freshUploadID := "web-file-upload-9",
    hasController := false, ctrlAt := fun _ => NewSimpleUploadController,
    waitOps := fun _ => [] }

/-- Skip-existing enabled on a resuming upload. -/
def c2Cfg : Config :=
  { ChunkSize := 10485760, SkipExisting := true, MaxRetries := 3,
    hasProgressFunc := false, ResumeFromCheckpoint := some c2Checkpoint }

/-- Skip-existing enabled on a fresh (non-resuming) upload. -/
def c2wCfg : Config :=
  { ChunkSize := 10485760, SkipExisting := true, MaxRetries := 3,
    hasProgressFunc := false, ResumeFromCheckpoint := none }

/-- A transport on which every chunk write fails. -/
def c3Env : Env :=
  { username := "alice", localSize := 26214400,
    remoteStat := fun _ => none, mkcolErr := fun _ => none,
    writeErr := fun _ => some "boom",
    renameErr := none, ctxDone := false, freshUploadID := "u3",
    hasController := false, ctrlAt := fun _ => NewSimpleUploadController,
    waitOps := fun _ => [] }

/-- MaxRetries = 2, so three attempts per chunk. -/
def c3Cfg : Config :=
  { ChunkSize := 10485760, SkipExisting := false, MaxRetries := 2,
    hasProgressFunc := true, ResumeFromCheckpoint := none }

/-- A controller that was paused from the running state: the engine
will observe Paused with no buffered resume signal. -/
def c1Ctrl : UploadController := NewSimpleUploadController.Pause

/-- The engine observes the paused controller and, while it is blocked
in the pause wait, another thread invokes Cancel. -/
def c1Env : Env :=
  { username := "alice", localSize := 26214400,
    remoteStat := fun _ => none, mkcolErr := fun _ => none, writeErr := fun _ => none,
    renameErr := none, ctxDone := false, freshUploadID := "u4",
    hasController := true, ctrlAt := fun _ => c1Ctrl,
    waitOps := fun _ => [.cancelOp] }

/-- The engine observes an already cancelled controller at the top of
an iteration. -/
def c1wEnv : Env :=
  { username := "alice", localSize := 26214400,
    remoteStat := fun _ => none, mkcolErr := fun _ => none, writeErr := fun _ => none,
    renameErr := none, ctxDone := false, freshUploadID := "u5",
    hasController := true, ctrlAt := fun _ => NewSimpleUploadController.Cancel,
    waitOps := fun _ => [] }

/-! ## Claims about the engine -/

/-- Claim C10: sanitizeRemotePath always yields a relative path: the
result never starts with a slash and, after cleaning, contains no
dot-dot segment, so no destination joined under files/<user>/ can
escape that root; and uploadFileCore rejects an upload whose sanitized
remote path is empty with the invalid-remote-path error before any
transport call (the trace holds no transport calls, only the started
event). -/
theorem sanitizeRemotePath_no_traversal :
    (∀ p : List Char,
      (sanitizeRemotePath p).head? ≠ some '/' ∧
      ∀ seg ∈ splitSlash (sanitizeRemotePath p), seg ≠ ['.', '.']) ∧
    (∀ (env : Env) (cfg : Config) (dstPath : String) (fuel : Nat),
      env.ctxDone = false → sanitizeRemotePathStr dstPath = "" →
      uploadFileCore env cfg dstPath fuel =
        (.error .invalidRemotePath, ⟨[], [.uploadStarted], []⟩)) := by
  constructor
  · intro p
    exact finishClean_safe _
  · intro env cfg dstPath fuel hctx hclean
    simp [uploadFileCore, hctx, hclean]

/-- Concrete instantiation of the sanitization theorem: a traversal
attempt keeps no dot-dot and a bare files/ path is rejected by the
upload core before any transport call. -/
theorem sanitizeRemotePath_no_traversal_witness :
    (sanitizeRemotePath ("/abc/../x".data)).head? ≠ some '/' ∧
    uploadFileCore c7Env c7Cfg "files/a" 1 =
      (.error .invalidRemotePath, ⟨[], [.uploadStarted], []⟩) := by
  refine ⟨(sanitizeRemotePath_no_traversal.1 ("/abc/../x".data)).1, ?_⟩
  exact sanitizeRemotePath_no_traversal.2 c7Env c7Cfg "files/a" 1 rfl (by decide)

/-- Claim C2, counterexample: a resuming upload (a resume checkpoint is
configured) still performs the skip-existing check.  With the
destination present at the local size, the engine stats the destination
and returns success as skipped — no resumed event, no chunk upload, no
finalize — contradicting the claim that the check is not performed for
a resuming upload. -/
theorem skip_on_resume_counterexample :
    c2Cfg.ResumeFromCheckpoint = some c2Checkpoint ∧
    uploadFileCore c2Env c2Cfg "docs/big.bin" 8 =
      (.ok (), ⟨[.stat "files/alice/docs/big.bin"],
                [.uploadStarted, .uploadSkipped], []⟩) := by
  exact ⟨rfl, by rfl⟩

/-- Claim C2, amended: the skip-existing check is performed for every
upload, resuming or not, before the begin phase: whenever skipIfSameSize
is enabled and the destination exists as a file with exactly the local
size, the engine stats the destination, emits the skipped event and
returns success with no chunk upload and no finalize call — regardless
of the resume checkpoint. -/
theorem skipExisting_skips (env : Env) (cfg : Config) (dstPath : String) (fuel : Nat)
    (hctx : env.ctxDone = false)
    (hskip : cfg.SkipExisting = true)
    (hclean : sanitizeRemotePathStr dstPath ≠ "")
    (hstat : env.remoteStat
        (pathJoinMany ["files", env.username, sanitizeRemotePathStr dstPath])
      = some (env.localSize, false)) :
    uploadFileCore env cfg dstPath fuel =
      (.ok (),
       ⟨[.stat (pathJoinMany ["files", env.username, sanitizeRemotePathStr dstPath])],
        [.uploadStarted, .uploadSkipped], []⟩) := by
  simp [uploadFileCore, hctx, hskip, hclean, hstat]

/-- Concrete instantiation of the amended skip theorem on a fresh
(non-resuming) upload. -/
theorem skipExisting_skips_witness :
    uploadFileCore c2Env c2wCfg "docs/big.bin" 8 =
      (.ok (),
       ⟨[.stat (pathJoinMany ["files", c2Env.username,
            sanitizeRemotePathStr "docs/big.bin"])],
        [.uploadStarted, .uploadSkipped], []⟩) :=
  skipExisting_skips c2Env c2wCfg "docs/big.bin" 8 rfl rfl (by decide) (by decide)

lemma retryLoop_all_fail (env : Env) (chunkPath : String) (payload : Int)
    (hctx : env.ctxDone = false) :
    ∀ (attempts : Nat) (wc : Nat), attempts ≠ 0 →
      (∀ j, j < attempts → (env.writeErr (wc + j)).isSome = true) →
      retryLoop env chunkPath payload wc attempts =
        (List.replicate attempts (.write chunkPath payload), wc + attempts,
         .ok (some ((env.writeErr (wc + (attempts - 1))).getD ""))) := by
  intro attempts
  induction attempts with
  | zero => intro wc h; exact absurd rfl h
  | succ k ih =>
    intro wc _ hfail
    have h0 : (env.writeErr wc).isSome = true := by
      simpa using hfail 0 (Nat.succ_pos k)
    rcases hmsg : env.writeErr wc with _ | msg
    · rw [hmsg] at h0; simp at h0
    by_cases hk : k = 0
    · subst hk
      simp [retryLoop, hctx, hmsg]
    · have hih := ih (wc + 1) hk (fun j hj => by
        have h := hfail (j + 1) (Nat.succ_lt_succ hj)
        have harith : wc + (j + 1) = wc + 1 + j := by omega
        rwa [harith] at h)
      have h1 : wc + 1 + k = wc + (k + 1) := by omega
      have h2 : wc + 1 + (k - 1) = wc + (k + 1 - 1) := by omega
      simp only [retryLoop, hctx, Bool.false_eq_true, if_false, hmsg, hk, reduceIte,
        hih, h1, h2]
      simp [List.replicate_succ]

/-- Claim C3: a chunk whose every write attempt fails exhausts exactly
MaxRetries + 1 attempts, re-checking the context before each, and
aborts the upload with a chunk-upload UploadError carrying the
operation name, the chunk's object path (the staging base joined with
the decimal byte offset), the last underlying write error, and Retries
equal to the configured MaxRetries; the trace of this exit contains
exactly the failed writes and no RemoveAll call — the staging
collection is left intact, so a later resume can continue from the
partially uploaded state. -/
theorem chunk_retry_exhaustion (env : Env) (cfg : Config) (uploadBase : String)
    (total totalChunks : Int) (fuel : Nat) (st : LoopState)
    (hctx : env.ctxDone = false)
    (hctl : env.hasController = false)
    (hoff : st.offset < total)
    (hR : 0 ≤ cfg.MaxRetries)
    (hfail : ∀ j, j < (cfg.MaxRetries + 1).toNat →
      (env.writeErr (st.wc + j)).isSome = true) :
    chunkLoop env cfg uploadBase total totalChunks (fuel + 1) st =
      (.error (.chunkUpload
        { Op := "chunk upload",
          Path := pathJoin uploadBase (toString st.offset),
          Err := (env.writeErr (st.wc + cfg.MaxRetries.toNat)).getD "",
          Retries := cfg.MaxRetries }),
       ⟨List.replicate (cfg.MaxRetries + 1).toNat
          (.write (pathJoin uploadBase (toString st.offset))
            (min cfg.ChunkSize (total - st.offset))), [], []⟩) ∧
    ∀ pth, Call.removeAll pth ∉
      (chunkLoop env cfg uploadBase total totalChunks (fuel + 1) st).2.calls := by
  have hA : (cfg.MaxRetries + 1).toNat ≠ 0 := by omega
  have hrl := retryLoop_all_fail env (pathJoin uploadBase (toString st.offset))
    (min cfg.ChunkSize (total - st.offset)) hctx (cfg.MaxRetries + 1).toNat st.wc hA hfail
  have hsub : (cfg.MaxRetries + 1).toNat - 1 = cfg.MaxRetries.toNat := by omega
  rw [hsub] at hrl
  have hcc : controllerCheck env uploadBase st.iter = .proceed Trace.empty := by
    simp [controllerCheck, hctl]
  have hmain : chunkLoop env cfg uploadBase total totalChunks (fuel + 1) st =
      (.error (.chunkUpload
        { Op := "chunk upload",
          Path := pathJoin uploadBase (toString st.offset),
          Err := (env.writeErr (st.wc + cfg.MaxRetries.toNat)).getD "",
          Retries := cfg.MaxRetries }),
       ⟨List.replicate (cfg.MaxRetries + 1).toNat
          (.write (pathJoin uploadBase (toString st.offset))
            (min cfg.ChunkSize (total - st.offset))), [], []⟩) := by
    simp only [chunkLoop, hoff, if_true, hctx, Bool.false_eq_true, if_false, hcc, hrl,
      Trace.empty, Trace.app_def, List.nil_append, List.append_nil]
  refine ⟨hmain, ?_⟩
  rw [hmain]
  intro pth hmem
  have := List.eq_of_mem_replicate hmem
  simp at this

/-- Concrete instantiation of the retry-exhaustion theorem: with
MaxRetries = 2 and a transport failing every write, the first chunk is
attempted exactly three times and the run aborts with the chunk-upload
error reporting two retries, leaving no RemoveAll in the trace. -/
theorem chunk_retry_exhaustion_witness :
    chunkLoop c3Env c3Cfg "uploads/alice/u3" 26214400 3 4
      { offset := 0, sent := 0, chunkIndex := 0, wc := 0, iter := 0 } =
      (.error (.chunkUpload
        { Op := "chunk upload", Path := "uploads/alice/u3/0", Err := "boom",
          Retries := 2 }),
       ⟨[.write "uploads/alice/u3/0" 10485760, .write "uploads/alice/u3/0" 10485760,
         .write "uploads/alice/u3/0" 10485760], [], []⟩) := by
  have h := (chunk_retry_exhaustion c3Env c3Cfg "uploads/alice/u3" 26214400 3 3
    { offset := 0, sent := 0, chunkIndex := 0, wc := 0, iter := 0 }
    rfl rfl (by decide) (by decide) (fun j hj => rfl)).1
  exact h.trans (by rfl)

/-- Claim C7: a 25 MiB file with a 10 MiB chunk size, no resume, no
skip, and a transport accepting every write produces exactly three
chunk writes, at the staging paths named by byte offsets 0, 10485760
and 20971520, the first two carrying 10 MiB and the third exactly
5 MiB; exactly one finalize rename follows (plus the staging MKCOL
before and the staging cleanup after); and the progress callback is
invoked exactly three times, reporting 40, 80 and 100 percent in that
order.  The float64 arithmetic of the Go code is exact at these three
percentages, so the rational model agrees with it. -/
theorem upload_25MiB_trace :
    uploadFileCore c7Env c7Cfg "docs/big.bin" 4 =
      (.ok (),
       { calls := [.mkcol "files/alice/docs",
                   .mkcol "uploads/alice/web-file-upload-1",
                   .write "uploads/alice/web-file-upload-1/0" 10485760,
                   .write "uploads/alice/web-file-upload-1/10485760" 10485760,
                   .write "uploads/alice/web-file-upload-1/20971520" 5242880,
                   .rename "uploads/alice/web-file-upload-1/.file"
                     "files/alice/docs/big.bin",
                   .removeAll "uploads/alice/web-file-upload-1"],
         events := [.uploadStarted, .chunkUploaded, .chunkUploaded, .chunkUploaded,
                    .chunksComplete, .moveStarted, .moveComplete, .uploadComplete],
         progress := [{ Current := 10485760, Total := 26214400, Percentage := 40,
                        ChunkIndex := 0, TotalChunks := 3 },
                      { Current := 20971520, Total := 26214400, Percentage := 80,
                        ChunkIndex := 1, TotalChunks := 3 },
                      { Current := 26214400, Total := 26214400, Percentage := 100,
                        ChunkIndex := 2, TotalChunks := 3 }] }) := by
  have e1 : ((10485760 : Int) : ℚ) / ((26214400 : Int) : ℚ) * 100 = 40 := by norm_num
  have e2 : ((20971520 : Int) : ℚ) / ((26214400 : Int) : ℚ) * 100 = 80 := by norm_num
  have e3 : ((26214400 : Int) : ℚ) / ((26214400 : Int) : ℚ) * 100 = 100 := by norm_num
  rw [← e3, ← e1, ← e2]
  rfl

lemma applyCtrlOp_cancelled_sig (uc : UploadController) (op : CtrlOp)
    (hst : uc.state = .cancelled) (hsig : uc.resumeSig = false) :
    (applyCtrlOp uc op).resumeSig = false := by
  cases op <;>
    simp [applyCtrlOp, UploadController.Pause, UploadController.Resume,
      UploadController.Cancel, hst, hsig]

lemma applyCtrlOps_cancelled_sig (ops : List CtrlOp) (uc : UploadController)
    (hst : uc.state = .cancelled) (hsig : uc.resumeSig = false) :
    (applyCtrlOps uc ops).resumeSig = false := by
  induction ops generalizing uc with
  | nil => exact hsig
  | cons op ops ih =>
    exact ih _ (applyCtrlOp_cancelled uc op hst) (applyCtrlOp_cancelled_sig uc op hst hsig)

/-- Claim C1, amended: cancellation takes precedence over pause only
when the engine observes the Cancelled state at the top of a chunk
iteration — there it removes the staging collection and aborts with
the cancellation error.  Once the engine is at or inside its pause
wait, Cancel does not wake it: the wait listens only for a resume
signal or the one-hour timer, Cancel sends no signal, and Resume on a
cancelled controller never sends; so when the controller is paused
with no buffered resume signal and Cancel is invoked during the wait
(followed by any further controller calls whatsoever), the engine
stays blocked until the one-hour timeout and the iteration ends with
the paused-timeout error, not a cancellation error. -/
theorem cancel_vs_pause (env : Env) (cfg : Config) (uploadBase : String)
    (total totalChunks : Int) (fuel : Nat) (st : LoopState)
    (hctx : env.ctxDone = false)
    (hctl : env.hasController = true)
    (hoff : st.offset < total) :
    ((env.ctrlAt st.iter).state = .cancelled →
      chunkLoop env cfg uploadBase total totalChunks (fuel + 1) st =
        (.error .cancelled, ⟨[.removeAll uploadBase], [], []⟩)) ∧
    (∀ rest : List CtrlOp,
      (env.ctrlAt st.iter).state = .paused →
      (env.ctrlAt st.iter).resumeSig = false →
      env.waitOps st.iter = .cancelOp :: rest →
      chunkLoop env cfg uploadBase total totalChunks (fuel + 1) st =
        (.error .pausedTimeout, ⟨[], [.uploadPaused], []⟩)) := by
  constructor
  · intro hcanc
    have hcc : controllerCheck env uploadBase st.iter =
        .abort .cancelled ⟨[.removeAll uploadBase], [], []⟩ := by
      simp [controllerCheck, hctl, hcanc]
    simp only [chunkLoop, hoff, if_true, hctx, Bool.false_eq_true, if_false, hcc]
  · intro rest hpaused hsig hops
    have hwait : pauseWaitOutcome (env.ctrlAt st.iter) (env.waitOps st.iter) =
        .timedOut := by
      rw [pauseWaitOutcome, hops]
      have hstep : applyCtrlOps (env.ctrlAt st.iter) (.cancelOp :: rest) =
          applyCtrlOps ((env.ctrlAt st.iter).Cancel) rest := rfl
      have hnosig : (applyCtrlOps ((env.ctrlAt st.iter).Cancel) rest).resumeSig
          = false :=
        applyCtrlOps_cancelled_sig rest _ rfl
          (by simpa [UploadController.Cancel] using hsig)
      rw [hstep, hnosig]
      simp
    have hcc : controllerCheck env uploadBase st.iter =
        .abort .pausedTimeout ⟨[], [.uploadPaused], []⟩ := by
      rw [controllerCheck, if_pos hctl, hpaused]
      rw [hwait]
    simp only [chunkLoop, hoff, if_true, hctx, Bool.false_eq_true, if_false, hcc]

/-- Concrete instantiation of the amended cancellation theorem: a
cancelled controller observed at the loop top aborts the run with the
cancellation error, while Cancel arriving during the pause wait leaves
the engine to time out. -/
theorem cancel_vs_pause_witness :
    chunkLoop c1wEnv c7Cfg "uploads/alice/u5" 26214400 3 4
      { offset := 0, sent := 0, chunkIndex := 0, wc := 0, iter := 0 } =
      (.error .cancelled, ⟨[.removeAll "uploads/alice/u5"], [], []⟩) ∧
    chunkLoop c1Env c7Cfg "uploads/alice/u4" 26214400 3 4
      { offset := 0, sent := 0, chunkIndex := 0, wc := 0, iter := 0 } =
      (.error .pausedTimeout, ⟨[], [.uploadPaused], []⟩) := by
  constructor
  · exact (cancel_vs_pause c1wEnv c7Cfg "uploads/alice/u5" 26214400 3 3
      { offset := 0, sent := 0, chunkIndex := 0, wc := 0, iter := 0 }
      rfl rfl (by decide)).1 rfl
  · exact (cancel_vs_pause c1Env c7Cfg "uploads/alice/u4" 26214400 3 3
      { offset := 0, sent := 0, chunkIndex := 0, wc := 0, iter := 0 }
      rfl rfl (by decide)).2 [] rfl rfl rfl

/-- Claim C1, counterexample: with the controller paused (no buffered
resume signal) and Cancel invoked while the engine is in its pause
wait, the iteration does not abort with the cancellation error: the
engine stays blocked until the one-hour timer and fails with the
paused-timeout error. -/
theorem cancel_during_pause_counterexample :
    c1Ctrl.state = .paused ∧
    c1Env.waitOps 0 = [.cancelOp] ∧
    chunkLoop c1Env c7Cfg "uploads/alice/u4" 26214400 3 4
      { offset := 0, sent := 0, chunkIndex := 0, wc := 0, iter := 0 } =
      (.error .pausedTimeout, ⟨[], [.uploadPaused], []⟩) ∧
    EngineErr.pausedTimeout ≠ EngineErr.cancelled := by
  refine ⟨rfl, rfl, by rfl, by decide⟩

end Godav
